import Mathlib

/-!
Shallow embedding of `src/cli.h` (a small stb-style command-line helper).

Tokens are C strings modelled as NUL-free character lists.  A null pointer
is modelled as `none`; the populated prefix of a `CliStringArray`'s backing
store is modelled as the list held in its `data` field.  The append macro's
`assert` on overflow halts the process, which the embedding renders as the
whole computation returning `none`.  The three `malloc` calls made by
`cli_parse` are driven by three explicit booleans (`true` = allocation
succeeds).  The default configuration of the header is modelled
(`CLI_DEFAULT_ARR_CAP = 5`, styles enabled).
-/

abbrev Token := List Char

/-- `CLI_DEFAULT_ARR_CAP` from cli.h (default configuration). -/
def CLI_DEFAULT_ARR_CAP : Nat := 5

/-- `struct CliStringArray`: length, capacity, and owned storage (null = `none`). -/
@[ext] structure CliStringArray where
  length : Nat
  capacity : Nat
  data : Option (List Token)
deriving DecidableEq

/-- `struct Cli` (pointers modelled as `Option Token`). -/
@[ext] structure Cli where
  execfile : Option Token
  command : Option Token
  args : CliStringArray
  cmd_options : CliStringArray
  program_options : CliStringArray
deriving DecidableEq

/-- `enum CliError`. -/
inductive CliError where
  | CliErrorOk
  | CliErrorUser
  | CliErrorFatal
deriving DecidableEq

/-- `cli_da_init(array, item_t, da_malloc)`: capacity `CLI_DEFAULT_ARR_CAP`,
length 0, storage from the allocator (`mallocOk = false` models a failed
`CLI_MALLOC`, leaving `data` null). -/
def cli_da_init (mallocOk : Bool) : CliStringArray :=
  { capacity := CLI_DEFAULT_ARR_CAP
    length := 0
    data := if mallocOk then some [] else none }

/-- `cli_da_append(array, item)`: `++length > capacity` fires the assert
(modelled by `none`); otherwise the item is stored at the next slot. -/
def cli_da_append (a : CliStringArray) (item : Token) : Option CliStringArray :=
  if a.capacity < a.length + 1 then
    none
  else
    some { a with length := a.length + 1, data := a.data.map (fun l => l ++ [item]) }

/-- The test `arg[0] == '-'`. -/
def startsWithDash : Token → Bool
  | [] => false
  | c :: _ => c == '-'

/-- The test `arg[1] == '-' && arg[2] == '\0'` taken together with
`arg[0] == '-'`: the token is exactly `"--"`. -/
def isDoubleDash (t : Token) : Bool := t == ['-', '-']

/-- The token `"--"`. -/
def ddTok : Token := ['-', '-']

/-- The `while (argc)` loop of `cli_parse`, lines 260-285 of cli.h.
Returns `none` when the append assert fires. -/
def cli_parse_loop : List Token → Bool → Cli → Option (CliError × Cli)
  | [], _, cli => some (CliError.CliErrorOk, cli)
  | arg :: rest, is_cmd_option, cli =>
    if startsWithDash arg then
      if isDoubleDash arg then
        if cli.args.length > 0 then
          some (CliError.CliErrorUser, cli)
        else
          cli_parse_loop rest true cli
      else
        if is_cmd_option then
          match cli_da_append cli.cmd_options arg with
          | none => none
          | some a => cli_parse_loop rest is_cmd_option { cli with cmd_options := a }
        else
          match cli_da_append cli.program_options arg with
          | none => none
          | some a => cli_parse_loop rest is_cmd_option { cli with program_options := a }
    else
      match cli_da_append cli.args arg with
      | none => none
      | some a => cli_parse_loop rest is_cmd_option { cli with args := a }

/-- `cli_parse(argc, argv, cli)`.  `argv` is the full vector including the
invocation path; `malloc1/2/3` drive the three `CLI_MALLOC` calls in program
order (args, cmd_options, program_options); `cli` is the memory the out
parameter points at before the call.  `none` models a halt by
`CLI_ASSERT` (empty argv, or array overflow during the loop).  The source's
`if (argc > 0)` test, with `argc` already decremented by `cli_pop_argv`, is
rendered as `rest.isEmpty` with the two branches swapped. -/
def cli_parse (argv : List Token) (malloc1 malloc2 malloc3 : Bool) (cli : Cli) :
    Option (CliError × Cli) :=
  match argv with
  | [] => none
  | execfile :: rest =>
    if rest.isEmpty then
      some (CliError.CliErrorOk,
        { execfile := some execfile
          command := none
          args := { length := 0, capacity := 0, data := none }
          cmd_options := { length := 0, capacity := 0, data := none }
          program_options := { length := 0, capacity := 0, data := none } })
    else
      let cli1 : Cli := { cli with execfile := some execfile, args := cli_da_init malloc1 }
      if cli1.args.data = none then
        some (CliError.CliErrorFatal, cli1)
      else
        let cli2 : Cli := { cli1 with cmd_options := cli_da_init malloc2 }
        if cli2.cmd_options.data = none then
          some (CliError.CliErrorFatal, cli2)
        else
          let cli3 : Cli := { cli2 with program_options := cli_da_init malloc3 }
          if cli3.program_options.data = none then
            some (CliError.CliErrorFatal, cli3)
          else
            cli_parse_loop rest false cli3

/-- The five style globals of cli.h, gathered into one record. -/
@[ext] structure CliStyles where
  CLI_RESET : String
  CLI_BOLD : String
  CLI_DIM : String
  CLI_FORE_RED : String
  CLI_FORE_BRBLUE : String
deriving DecidableEq

/-- The initial values of the five globals (all empty, lines 88-92). -/
def initCliStyles : CliStyles := ⟨"", "", "", "", ""⟩

/-- `cli_toggle_colors()` (styles enabled): tests `CLI_RESET[0]`, i.e.
whether `CLI_RESET` is non-empty, and sets all five globals accordingly. -/
def cli_toggle_colors (s : CliStyles) : CliStyles :=
  if s.CLI_RESET ≠ "" then
    ⟨"", "", "", "", ""⟩
  else
    ⟨"\x1b[0m", "\x1b[1m", "\x1b[2m", "\x1b[31m", "\x1b[94m"⟩

/-- The "all styles on" state produced by toggling from the initial state. -/
def stylesOn : CliStyles := ⟨"\x1b[0m", "\x1b[1m", "\x1b[2m", "\x1b[31m", "\x1b[94m"⟩

/-- All five style strings are empty. -/
def stylesInactive (s : CliStyles) : Prop :=
  s.CLI_RESET = "" ∧ s.CLI_BOLD = "" ∧ s.CLI_DIM = "" ∧
    s.CLI_FORE_RED = "" ∧ s.CLI_FORE_BRBLUE = ""

/-- All five style strings are non-empty. -/
def stylesActive (s : CliStyles) : Prop :=
  s.CLI_RESET ≠ "" ∧ s.CLI_BOLD ≠ "" ∧ s.CLI_DIM ≠ "" ∧
    s.CLI_FORE_RED ≠ "" ∧ s.CLI_FORE_BRBLUE ≠ ""

lemma toggle_initCliStyles : cli_toggle_colors initCliStyles = stylesOn := by
  simp [cli_toggle_colors, initCliStyles, stylesOn]

lemma toggle_stylesOn : cli_toggle_colors stylesOn = initCliStyles := by
  simp [cli_toggle_colors, initCliStyles, stylesOn]

lemma iterate_toggle_reachable (n : Nat) :
    cli_toggle_colors^[n] initCliStyles = initCliStyles ∨
      cli_toggle_colors^[n] initCliStyles = stylesOn := by
  induction n with
  | zero => left; rfl
  | succ k ih =>
    rw [Function.iterate_succ_apply']
    rcases ih with h | h <;> rw [h]
    · right; exact toggle_initCliStyles
    · left; exact toggle_stylesOn

/-- Outcome of the classification loop, tracked at the specification level:
either the whole token list is consumed (`ok`, recording the final scope flag
and the three populated lists) or the double-dash user error stops the scan
(`user`, recording the arrays at the moment of the stop). -/
inductive SpecOut where
  | ok (scope : Bool) (argsL cmdL progL : List Token)
  | user (argsL cmdL progL : List Token)
deriving DecidableEq

/-- Positional tokens collected so far. -/
def SpecOut.outA : SpecOut → List Token
  | .ok _ A _ _ => A
  | .user A _ _ => A

/-- Command-option tokens collected so far. -/
def SpecOut.outC : SpecOut → List Token
  | .ok _ _ C _ => C
  | .user _ C _ => C

/-- Program-option tokens collected so far. -/
def SpecOut.outP : SpecOut → List Token
  | .ok _ _ _ P => P
  | .user _ _ P => P

/-- Whether the outcome is the user error. -/
def SpecOut.isUser : SpecOut → Bool
  | .ok _ _ _ _ => false
  | .user _ _ _ => true

/-- Pure mirror of the `while (argc)` loop of `cli_parse`, with the three
arrays replaced by plain lists and the capacity checks dropped. -/
def specLoop : List Token → Bool → List Token → List Token → List Token → SpecOut
  | [], isCmd, A, C, P => .ok isCmd A C P
  | arg :: rest, isCmd, A, C, P =>
    if startsWithDash arg then
      if isDoubleDash arg then
        if A.length > 0 then .user A C P
        else specLoop rest true A C P
      else
        if isCmd then specLoop rest isCmd A (C ++ [arg]) P
        else specLoop rest isCmd A C (P ++ [arg])
    else
      specLoop rest isCmd (A ++ [arg]) C P

/-- The user-error condition of the scan: some `"--"` token is reached while
a positional argument has already been collected (`seenPos` carries whether
one was seen before the scan started). -/
def hasUserErr : List Token → Bool → Bool
  | [], _ => false
  | arg :: rest, seenPos =>
    if startsWithDash arg then
      if isDoubleDash arg then
        if seenPos then true else hasUserErr rest seenPos
      else hasUserErr rest seenPos
    else hasUserErr rest true

lemma isDoubleDash_eq (t : Token) (h : isDoubleDash t = true) : t = ddTok := by
  simpa [isDoubleDash, ddTok] using h

lemma startsWithDash_ddTok : startsWithDash ddTok = true := by
  simp [startsWithDash, ddTok]

lemma isDoubleDash_ddTok : isDoubleDash ddTok = true := by
  simp [isDoubleDash, ddTok]

/-- The scan's lists only grow. -/
lemma specLoop_mono (toks : List Token) (isCmd : Bool) (A C P : List Token) :
    A.length ≤ (specLoop toks isCmd A C P).outA.length ∧
    C.length ≤ (specLoop toks isCmd A C P).outC.length ∧
    P.length ≤ (specLoop toks isCmd A C P).outP.length := by
  induction toks generalizing isCmd A C P with
  | nil => simp [specLoop, SpecOut.outA, SpecOut.outC, SpecOut.outP]
  | cons arg rest ih =>
    by_cases hd : startsWithDash arg
    · by_cases hdd : isDoubleDash arg
      · by_cases hA : A.length > 0
        · simp [specLoop, hd, hdd, hA, SpecOut.outA, SpecOut.outC, SpecOut.outP]
        · simpa [specLoop, hd, hdd, hA] using ih true A C P
      · by_cases hc : isCmd
        · have h := ih isCmd A (C ++ [arg]) P
          simp only [specLoop, hd, hdd, hc, if_true, if_false] at *
          refine ⟨h.1, ?_, h.2.2⟩
          calc C.length ≤ (C ++ [arg]).length := by simp
            _ ≤ _ := h.2.1
        · have h := ih isCmd A C (P ++ [arg])
          simp only [specLoop, hd, hdd, hc, if_true, if_false] at *
          refine ⟨h.1, h.2.1, ?_⟩
          calc P.length ≤ (P ++ [arg]).length := by simp
            _ ≤ _ := h.2.2
    · have h := ih isCmd (A ++ [arg]) C P
      simp only [specLoop, hd, if_false] at *
      refine ⟨?_, h.2.1, h.2.2⟩
      calc A.length ≤ (A ++ [arg]).length := by simp
        _ ≤ _ := h.1

/-- The concrete state matches the spec-level lists: each array's storage
holds exactly the listed tokens and its `length` field agrees. -/
def goodState (cli : Cli) (A C P : List Token) : Prop :=
  cli.args.data = some A ∧ cli.args.length = A.length ∧
  cli.cmd_options.data = some C ∧ cli.cmd_options.length = C.length ∧
  cli.program_options.data = some P ∧ cli.program_options.length = P.length

/-- Overwrite the three arrays of `cli` with the given token lists, keeping
each array's capacity and all other fields. -/
def updState (cli : Cli) (A C P : List Token) : Cli :=
  { cli with
    args := { cli.args with length := A.length, data := some A }
    cmd_options := { cli.cmd_options with length := C.length, data := some C }
    program_options := { cli.program_options with length := P.length, data := some P } }

/-- Map a spec-level outcome to the loop's return value. -/
def specToResult (cli : Cli) : SpecOut → CliError × Cli
  | .ok _ A C P => (CliError.CliErrorOk, updState cli A C P)
  | .user A C P => (CliError.CliErrorUser, updState cli A C P)

lemma updState_self (cli : Cli) (A C P : List Token) (h : goodState cli A C P) :
    updState cli A C P = cli := by
  obtain ⟨h1, h2, h3, h4, h5, h6⟩ := h
  unfold updState
  ext <;> simp_all

lemma updState_congr (cli₁ cli₂ : Cli) (A C P : List Token)
    (he : cli₁.execfile = cli₂.execfile) (hc : cli₁.command = cli₂.command)
    (h1 : cli₁.args.capacity = cli₂.args.capacity)
    (h2 : cli₁.cmd_options.capacity = cli₂.cmd_options.capacity)
    (h3 : cli₁.program_options.capacity = cli₂.program_options.capacity) :
    updState cli₁ A C P = updState cli₂ A C P := by
  unfold updState
  ext <;> simp_all

lemma specToResult_congr (cli₁ cli₂ : Cli) (s : SpecOut)
    (he : cli₁.execfile = cli₂.execfile) (hc : cli₁.command = cli₂.command)
    (h1 : cli₁.args.capacity = cli₂.args.capacity)
    (h2 : cli₁.cmd_options.capacity = cli₂.cmd_options.capacity)
    (h3 : cli₁.program_options.capacity = cli₂.program_options.capacity) :
    specToResult cli₁ s = specToResult cli₂ s := by
  cases s <;> simp [specToResult, updState_congr cli₁ cli₂ _ _ _ he hc h1 h2 h3]

lemma cli_da_append_some (a : CliStringArray) (item : Token) (L : List Token)
    (hdata : a.data = some L) (hlen : a.length = L.length)
    (a' : CliStringArray) (h : cli_da_append a item = some a') :
    a' = ⟨L.length + 1, a.capacity, some (L ++ [item])⟩ ∧ a.length + 1 ≤ a.capacity := by
  unfold cli_da_append at h
  split at h
  · exact absurd h (by simp)
  · next hcap =>
    refine ⟨?_, by omega⟩
    have h2 := h.symm
    injection h2 with hh
    subst hh
    ext <;> simp [hdata, hlen]

lemma cli_da_append_isSome (a : CliStringArray) (item : Token)
    (h : a.length + 1 ≤ a.capacity) :
    cli_da_append a item =
      some { a with length := a.length + 1, data := a.data.map (fun l => l ++ [item]) } := by
  unfold cli_da_append
  rw [if_neg]
  omega

/-- Soundness of the spec scan: whenever the real loop returns, its result is
exactly the image of `specLoop` on the spec-level state. -/
lemma loop_to_spec (toks : List Token) (isCmd : Bool) (cli : Cli) (A C P : List Token)
    (r : CliError) (cli' : Cli) (hg : goodState cli A C P)
    (hrun : cli_parse_loop toks isCmd cli = some (r, cli')) :
    (r, cli') = specToResult cli (specLoop toks isCmd A C P) := by
  induction toks generalizing isCmd cli A C P r cli' with
  | nil =>
    simp only [cli_parse_loop, Option.some.injEq, Prod.mk.injEq] at hrun
    obtain ⟨hr, hc⟩ := hrun
    subst hr
    subst hc
    simp [specLoop, specToResult, updState_self cli A C P hg]
  | cons arg rest ih =>
    obtain ⟨g1, g2, g3, g4, g5, g6⟩ := hg
    by_cases hd : startsWithDash arg
    · by_cases hdd : isDoubleDash arg
      · by_cases hA : 0 < A.length
        · have hA' : cli.args.length > 0 := by omega
          simp only [cli_parse_loop, hd, hdd, hA', if_true, Option.some.injEq,
            Prod.mk.injEq] at hrun
          obtain ⟨hr, hc⟩ := hrun
          subst hr
          subst hc
          simp [specLoop, hd, hdd, hA, specToResult,
            updState_self cli A C P ⟨g1, g2, g3, g4, g5, g6⟩]
        · have hA' : ¬ cli.args.length > 0 := by omega
          simp only [cli_parse_loop, hd, hdd, hA', if_true, if_false] at hrun
          have := ih true cli A C P r cli' ⟨g1, g2, g3, g4, g5, g6⟩ hrun
          simpa [specLoop, hd, hdd, hA] using this
      · cases isCmd with
        | true =>
          simp only [cli_parse_loop, hd, hdd, Bool.false_eq_true, if_true, if_false] at hrun
          cases happ : cli_da_append cli.cmd_options arg with
          | none => rw [happ] at hrun; simp at hrun
          | some a2 =>
            rw [happ] at hrun
            simp only [] at hrun
            obtain ⟨ha2, -⟩ := cli_da_append_some cli.cmd_options arg C g3 g4 a2 happ
            have hg2 : goodState { cli with cmd_options := a2 } A (C ++ [arg]) P := by
              refine ⟨g1, g2, ?_, ?_, g5, g6⟩ <;> simp [ha2]
            have := ih true { cli with cmd_options := a2 } A (C ++ [arg]) P r cli' hg2 hrun
            rw [this]
            simp only [specLoop, hd, hdd, Bool.false_eq_true, if_true, if_false]
            exact specToResult_congr _ _ _ rfl rfl rfl (by simp [ha2]) rfl
        | false =>
          simp only [cli_parse_loop, hd, hdd, Bool.false_eq_true, if_true, if_false] at hrun
          cases happ : cli_da_append cli.program_options arg with
          | none => rw [happ] at hrun; simp at hrun
          | some a2 =>
            rw [happ] at hrun
            simp only [] at hrun
            obtain ⟨ha2, -⟩ := cli_da_append_some cli.program_options arg P g5 g6 a2 happ
            have hg2 : goodState { cli with program_options := a2 } A C (P ++ [arg]) := by
              refine ⟨g1, g2, g3, g4, ?_, ?_⟩ <;> simp [ha2]
            have := ih false { cli with program_options := a2 } A C (P ++ [arg]) r cli' hg2 hrun
            rw [this]
            simp only [specLoop, hd, hdd, Bool.false_eq_true, if_true, if_false]
            exact specToResult_congr _ _ _ rfl rfl rfl rfl (by simp [ha2])
    · simp only [cli_parse_loop, hd, if_false] at hrun
      cases happ : cli_da_append cli.args arg with
      | none => rw [happ] at hrun; simp at hrun
      | some a2 =>
        rw [happ] at hrun
        simp only [] at hrun
        obtain ⟨ha2, -⟩ := cli_da_append_some cli.args arg A g1 g2 a2 happ
        have hg2 : goodState { cli with args := a2 } (A ++ [arg]) C P := by
          refine ⟨?_, ?_, g3, g4, g5, g6⟩ <;> simp [ha2]
        have := ih isCmd { cli with args := a2 } (A ++ [arg]) C P r cli' hg2 hrun
        rw [this]
        simp only [specLoop, hd, if_false]
        exact specToResult_congr _ _ _ rfl rfl (by simp [ha2]) rfl rfl

/-- Completeness of the spec scan: if neither final array count exceeds its
capacity, the real loop terminates normally (the append assert never fires). -/
lemma spec_to_loop (toks : List Token) (isCmd : Bool) (cli : Cli) (A C P : List Token)
    (hg : goodState cli A C P)
    (h1 : (specLoop toks isCmd A C P).outA.length ≤ cli.args.capacity)
    (h2 : (specLoop toks isCmd A C P).outC.length ≤ cli.cmd_options.capacity)
    (h3 : (specLoop toks isCmd A C P).outP.length ≤ cli.program_options.capacity) :
    (cli_parse_loop toks isCmd cli).isSome := by
  induction toks generalizing isCmd cli A C P with
  | nil => simp [cli_parse_loop]
  | cons arg rest ih =>
    obtain ⟨g1, g2, g3, g4, g5, g6⟩ := hg
    by_cases hd : startsWithDash arg
    · by_cases hdd : isDoubleDash arg
      · by_cases hA : 0 < A.length
        · have hA' : cli.args.length > 0 := by omega
          simp [cli_parse_loop, hd, hdd, hA']
        · have hA' : ¬ cli.args.length > 0 := by omega
          simp only [specLoop, hd, hdd, hA, if_true, if_false] at h1 h2 h3
          simp only [cli_parse_loop, hd, hdd, hA', if_true, if_false]
          exact ih true cli A C P ⟨g1, g2, g3, g4, g5, g6⟩ h1 h2 h3
      · cases isCmd with
        | true =>
          simp only [specLoop, hd, hdd, Bool.false_eq_true, if_true, if_false] at h1 h2 h3
          have hmono := (specLoop_mono rest true A (C ++ [arg]) P).2.1
          have hcap : cli.cmd_options.length + 1 ≤ cli.cmd_options.capacity := by
            simp only [List.length_append, List.length_cons, List.length_nil] at hmono
            omega
          have happ := cli_da_append_isSome cli.cmd_options arg hcap
          simp only [cli_parse_loop, hd, hdd, Bool.false_eq_true, if_true, if_false, happ]
          exact ih true _ A (C ++ [arg]) P
            ⟨g1, g2, by simp [g3], by simp [g4], g5, g6⟩ h1 h2 h3
        | false =>
          simp only [specLoop, hd, hdd, Bool.false_eq_true, if_true, if_false] at h1 h2 h3
          have hmono := (specLoop_mono rest false A C (P ++ [arg])).2.2
          have hcap : cli.program_options.length + 1 ≤ cli.program_options.capacity := by
            simp only [List.length_append, List.length_cons, List.length_nil] at hmono
            omega
          have happ := cli_da_append_isSome cli.program_options arg hcap
          simp only [cli_parse_loop, hd, hdd, Bool.false_eq_true, if_true, if_false, happ]
          exact ih false _ A C (P ++ [arg])
            ⟨g1, g2, g3, g4, by simp [g5], by simp [g6]⟩ h1 h2 h3
    · simp only [specLoop, hd, Bool.false_eq_true, if_false] at h1 h2 h3
      have hmono := (specLoop_mono rest isCmd (A ++ [arg]) C P).1
      have hcap : cli.args.length + 1 ≤ cli.args.capacity := by
        simp only [List.length_append, List.length_cons, List.length_nil] at hmono
        omega
      have happ := cli_da_append_isSome cli.args arg hcap
      simp only [cli_parse_loop, hd, Bool.false_eq_true, if_false, happ]
      exact ih isCmd _ (A ++ [arg]) C P
        ⟨by simp [g1], by simp [g2], g3, g4, g5, g6⟩ h1 h2 h3

/-- A freshly and successfully initialized dynamic array. -/
def freshArr : CliStringArray :=
  { length := 0, capacity := CLI_DEFAULT_ARR_CAP, data := some [] }

/-- The state of the out parameter right after the three successful
`cli_da_init` calls of `cli_parse`. -/
def initCli (cli0 : Cli) (exe : Token) : Cli :=
  { cli0 with
    execfile := some exe
    args := freshArr
    cmd_options := freshArr
    program_options := freshArr }

lemma cli_parse_cons (exe t : Token) (ts : List Token) (cli0 : Cli) :
    cli_parse (exe :: t :: ts) true true true cli0 =
      cli_parse_loop (t :: ts) false (initCli cli0 exe) := rfl

lemma goodState_initCli (cli0 : Cli) (exe : Token) :
    goodState (initCli cli0 exe) [] [] [] :=
  ⟨rfl, rfl, rfl, rfl, rfl, rfl⟩

lemma updState_initCli (cli0 : Cli) (exe : Token) (A C P : List Token) :
    updState (initCli cli0 exe) A C P =
      { execfile := some exe, command := cli0.command,
        args := ⟨A.length, CLI_DEFAULT_ARR_CAP, some A⟩,
        cmd_options := ⟨C.length, CLI_DEFAULT_ARR_CAP, some C⟩,
        program_options := ⟨P.length, CLI_DEFAULT_ARR_CAP, some P⟩ } := rfl

/-- Whenever `cli_parse` returns on a non-trivial vector (all allocations
succeeding), its result is the image of the spec scan started from empty
arrays in program-option scope. -/
lemma parse_to_spec (exe : Token) (toks : List Token) (cli0 : Cli) (r : CliError) (cli' : Cli)
    (hne : toks ≠ [])
    (hrun : cli_parse (exe :: toks) true true true cli0 = some (r, cli')) :
    (r, cli') = specToResult (initCli cli0 exe) (specLoop toks false [] [] []) := by
  obtain ⟨t, ts, rfl⟩ := List.exists_cons_of_ne_nil hne
  rw [cli_parse_cons] at hrun
  exact loop_to_spec _ _ _ [] [] [] _ _ (goodState_initCli cli0 exe) hrun

/-- If no class of tokens overflows the default capacity, `cli_parse`
returns (the overflow assert is unreachable). -/
lemma parse_total (exe : Token) (toks : List Token) (cli0 : Cli)
    (hne : toks ≠ [])
    (h1 : (specLoop toks false [] [] []).outA.length ≤ CLI_DEFAULT_ARR_CAP)
    (h2 : (specLoop toks false [] [] []).outC.length ≤ CLI_DEFAULT_ARR_CAP)
    (h3 : (specLoop toks false [] [] []).outP.length ≤ CLI_DEFAULT_ARR_CAP) :
    (cli_parse (exe :: toks) true true true cli0).isSome := by
  obtain ⟨t, ts, rfl⟩ := List.exists_cons_of_ne_nil hne
  rw [cli_parse_cons]
  exact spec_to_loop _ _ _ [] [] [] (goodState_initCli cli0 exe) h1 h2 h3

/-- The scan ends in the user error exactly when some `"--"` token occurs
after a positional token has been seen. -/
lemma specLoop_isUser (toks : List Token) (isCmd : Bool) (A C P : List Token) :
    (specLoop toks isCmd A C P).isUser = hasUserErr toks (decide (0 < A.length)) := by
  induction toks generalizing isCmd A C P with
  | nil => simp [specLoop, hasUserErr, SpecOut.isUser]
  | cons arg rest ih =>
    by_cases hd : startsWithDash arg
    · by_cases hdd : isDoubleDash arg
      · by_cases hA : 0 < A.length
        · simp [specLoop, hasUserErr, hd, hdd, hA, SpecOut.isUser]
        · simp [specLoop, hasUserErr, hd, hdd, hA, ih]
      · cases isCmd with
        | true => simp [specLoop, hasUserErr, hd, hdd, ih]
        | false => simp [specLoop, hasUserErr, hd, hdd, ih]
    · simp [specLoop, hasUserErr, hd, ih, Nat.succ_pos]

/-- On a completed scan the positional array extends the initial one by the
non-dash tokens, in input order. -/
lemma specLoop_ok_args (toks : List Token) (isCmd : Bool) (A C P : List Token)
    (b : Bool) (A' C' P' : List Token)
    (h : specLoop toks isCmd A C P = SpecOut.ok b A' C' P') :
    A' = A ++ toks.filter (fun t => !startsWithDash t) := by
  induction toks generalizing isCmd A C P with
  | nil =>
    simp only [specLoop, SpecOut.ok.injEq] at h
    simp [← h.2.1]
  | cons arg rest ih =>
    by_cases hd : startsWithDash arg
    · by_cases hdd : isDoubleDash arg
      · by_cases hA : 0 < A.length
        · simp [specLoop, hd, hdd, hA] at h
        · simp only [specLoop, hd, hdd, hA, if_true, if_false] at h
          simpa [List.filter_cons, hd] using ih true A C P h
      · cases isCmd with
        | true =>
          simp only [specLoop, hd, hdd, Bool.false_eq_true, if_true, if_false] at h
          simpa [List.filter_cons, hd] using ih true A (C ++ [arg]) P h
        | false =>
          simp only [specLoop, hd, hdd, Bool.false_eq_true, if_true, if_false] at h
          simpa [List.filter_cons, hd] using ih false A C (P ++ [arg]) h
    · simp only [specLoop, hd, Bool.false_eq_true, if_false] at h
      have := ih isCmd (A ++ [arg]) C P h
      simpa [List.filter_cons, hd, List.append_assoc] using this

/-- In command scope the program-option array can never change again. -/
lemma specLoop_true_outP (toks : List Token) (A C P : List Token) :
    (specLoop toks true A C P).outP = P := by
  induction toks generalizing A C P with
  | nil => simp [specLoop, SpecOut.outP]
  | cons arg rest ih =>
    by_cases hd : startsWithDash arg
    · by_cases hdd : isDoubleDash arg
      · by_cases hA : 0 < A.length
        · simp [specLoop, hd, hdd, hA, SpecOut.outP]
        · simp [specLoop, hd, hdd, hA, ih]
      · simp [specLoop, hd, hdd, ih]
    · simp [specLoop, hd, ih]

/-- A completed scan that starts in command scope stays there and sends all
dash tokens other than `"--"` to the command-option array. -/
lemma specLoop_true_ok (toks : List Token) (A C P : List Token)
    (b : Bool) (A' C' P' : List Token)
    (h : specLoop toks true A C P = SpecOut.ok b A' C' P') :
    b = true ∧ C' = C ++ toks.filter (fun t => startsWithDash t && !isDoubleDash t) := by
  induction toks generalizing A C P with
  | nil =>
    simp only [specLoop, SpecOut.ok.injEq] at h
    exact ⟨h.1.symm, by simp [← h.2.2.1]⟩
  | cons arg rest ih =>
    by_cases hd : startsWithDash arg
    · by_cases hdd : isDoubleDash arg
      · by_cases hA : 0 < A.length
        · simp [specLoop, hd, hdd, hA] at h
        · simp only [specLoop, hd, hdd, hA, if_true, if_false] at h
          obtain ⟨hb, hC⟩ := ih A C P h
          exact ⟨hb, by simp [hC, List.filter_cons, hd, hdd]⟩
      · simp only [specLoop, hd, hdd, Bool.false_eq_true, if_true, if_false] at h
        obtain ⟨hb, hC⟩ := ih A (C ++ [arg]) P h
        exact ⟨hb, by simp [hC, List.filter_cons, hd, hdd, List.append_assoc]⟩
    · simp only [specLoop, hd, Bool.false_eq_true, if_false] at h
      obtain ⟨hb, hC⟩ := ih (A ++ [arg]) C P h
      exact ⟨hb, by simp [hC, List.filter_cons, hd]⟩

/-- A completed scan that starts and ends in program scope never touched the
command-option array. -/
lemma specLoop_scope_false (toks : List Token) (A C P : List Token)
    (A' C' P' : List Token)
    (h : specLoop toks false A C P = SpecOut.ok false A' C' P') :
    C' = C := by
  induction toks generalizing A C P with
  | nil =>
    simp only [specLoop, SpecOut.ok.injEq] at h
    exact h.2.2.1.symm
  | cons arg rest ih =>
    by_cases hd : startsWithDash arg
    · by_cases hdd : isDoubleDash arg
      · by_cases hA : 0 < A.length
        · simp [specLoop, hd, hdd, hA] at h
        · simp only [specLoop, hd, hdd, hA, if_true, if_false] at h
          have := (specLoop_true_ok rest A C P false A' C' P' h).1
          simp at this
      · simp only [specLoop, hd, hdd, Bool.false_eq_true, if_true, if_false] at h
        exact ih A C (P ++ [arg]) h
    · simp only [specLoop, hd, Bool.false_eq_true, if_false] at h
      exact ih (A ++ [arg]) C P h

/-- A scan of a token list that contains no `"--"`, started in program scope,
completes in program scope: the command-option array is untouched and the
program-option array collects exactly the dash tokens. -/
lemma specLoop_noDD (toks : List Token) (A C P : List Token)
    (b : Bool) (A' C' P' : List Token)
    (hno : ddTok ∉ toks)
    (h : specLoop toks false A C P = SpecOut.ok b A' C' P') :
    b = false ∧ C' = C ∧ P' = P ++ toks.filter (fun t => startsWithDash t) := by
  induction toks generalizing A C P with
  | nil =>
    simp only [specLoop, SpecOut.ok.injEq] at h
    exact ⟨h.1.symm, h.2.2.1.symm, by simp [← h.2.2.2]⟩
  | cons arg rest ih =>
    have harg : arg ≠ ddTok := fun he => hno (by simp [he])
    have hdd : isDoubleDash arg = false := by
      cases hx : isDoubleDash arg
      · rfl
      · exact absurd (isDoubleDash_eq arg hx) harg
    have hno' : ddTok ∉ rest := fun hm => hno (List.mem_cons_of_mem _ hm)
    by_cases hd : startsWithDash arg
    · simp only [specLoop, hd, hdd, Bool.false_eq_true, if_true, if_false] at h
      obtain ⟨hb, hc, hp⟩ := ih A C (P ++ [arg]) hno' h
      exact ⟨hb, hc, by simp [hp, List.filter_cons, hd, List.append_assoc]⟩
    · simp only [specLoop, hd, Bool.false_eq_true, if_false] at h
      obtain ⟨hb, hc, hp⟩ := ih (A ++ [arg]) C P hno' h
      exact ⟨hb, hc, by simp [hp, List.filter_cons, hd]⟩

/-- The scan is compositional: running on `l1 ++ l2` runs on `l1` and, if no
user error occurred, continues on `l2` from the state and scope reached. -/
lemma specLoop_append (l1 l2 : List Token) (isCmd : Bool) (A C P : List Token) :
    specLoop (l1 ++ l2) isCmd A C P =
      match specLoop l1 isCmd A C P with
      | .ok b A' C' P' => specLoop l2 b A' C' P'
      | .user a c p => .user a c p := by
  induction l1 generalizing isCmd A C P with
  | nil => simp [specLoop]
  | cons arg rest ih =>
    by_cases hd : startsWithDash arg
    · by_cases hdd : isDoubleDash arg
      · by_cases hA : 0 < A.length
        · simp [specLoop, hd, hdd, hA]
        · simp [specLoop, hd, hdd, hA, ih]
      · cases isCmd with
        | true => simp [specLoop, hd, hdd, ih]
        | false => simp [specLoop, hd, hdd, ih]
    · simp [specLoop, hd, ih]

/-- Decomposition of a user-error scan: the input splits at the offending
`"--"`; the prefix before it scans cleanly to exactly the reported arrays,
whose positional part is non-empty. -/
lemma specLoop_user_split (toks : List Token) (isCmd : Bool) (A C P : List Token)
    (a c p : List Token)
    (h : specLoop toks isCmd A C P = SpecOut.user a c p) :
    ∃ pre post b, toks = pre ++ ddTok :: post ∧
      specLoop pre isCmd A C P = SpecOut.ok b a c p ∧ 0 < a.length := by
  induction toks generalizing isCmd A C P with
  | nil => simp [specLoop] at h
  | cons arg rest ih =>
    by_cases hd : startsWithDash arg
    · by_cases hdd : isDoubleDash arg
      · by_cases hA : 0 < A.length
        · simp only [specLoop, hd, hdd, hA, if_true, SpecOut.user.injEq] at h
          obtain ⟨ha, hc, hp⟩ := h
          refine ⟨[], rest, isCmd, by simp [isDoubleDash_eq arg hdd], ?_, ?_⟩
          · simp [specLoop, ha, hc, hp]
          · exact ha ▸ hA
        · simp only [specLoop, hd, hdd, hA, if_true, if_false] at h
          obtain ⟨pre, post, b, hsplit, hok, hlen⟩ := ih true A C P h
          refine ⟨arg :: pre, post, b, by simp [hsplit], ?_, hlen⟩
          simp [specLoop, hd, hdd, hA, hok]
      · cases isCmd with
        | true =>
          simp only [specLoop, hd, hdd, Bool.false_eq_true, if_true, if_false] at h
          obtain ⟨pre, post, b, hsplit, hok, hlen⟩ := ih true A (C ++ [arg]) P h
          refine ⟨arg :: pre, post, b, by simp [hsplit], ?_, hlen⟩
          simp [specLoop, hd, hdd, hok]
        | false =>
          simp only [specLoop, hd, hdd, Bool.false_eq_true, if_true, if_false] at h
          obtain ⟨pre, post, b, hsplit, hok, hlen⟩ := ih false A C (P ++ [arg]) h
          refine ⟨arg :: pre, post, b, by simp [hsplit], ?_, hlen⟩
          simp [specLoop, hd, hdd, hok]
    · simp only [specLoop, hd, Bool.false_eq_true, if_false] at h
      obtain ⟨pre, post, b, hsplit, hok, hlen⟩ := ih isCmd (A ++ [arg]) C P h
      refine ⟨arg :: pre, post, b, by simp [hsplit], ?_, hlen⟩
      simp [specLoop, hd, hok]

/-- Split a list at the first occurrence of an element. -/
lemma exists_first_split (x : Token) (l : List Token) (h : x ∈ l) :
    ∃ pre post, l = pre ++ x :: post ∧ x ∉ pre := by
  induction l with
  | nil => cases h
  | cons a rest ih =>
    by_cases hax : a = x
    · exact ⟨[], rest, by simp [hax], by simp⟩
    · have hx : x ∈ rest := by
        rcases List.mem_cons.mp h with he | hm
        · exact absurd he.symm hax
        · exact hm
      obtain ⟨pre, post, hsplit, hnot⟩ := ih hx
      refine ⟨a :: pre, post, by simp [hsplit], ?_⟩
      intro hmem
      rcases List.mem_cons.mp hmem with he | hm
      · exact hax he.symm
      · exact hnot hm

/-- Multiset-level partition: a completed scan distributes every occurrence of
every token other than `"--"` into exactly one of the three arrays. -/
lemma specLoop_ok_count (toks : List Token) (isCmd : Bool) (A C P : List Token)
    (b : Bool) (A' C' P' : List Token)
    (h : specLoop toks isCmd A C P = SpecOut.ok b A' C' P')
    (t : Token) (ht : t ≠ ddTok) :
    A'.count t + C'.count t + P'.count t =
      A.count t + C.count t + P.count t + toks.count t := by
  induction toks generalizing isCmd A C P with
  | nil =>
    simp only [specLoop, SpecOut.ok.injEq] at h
    simp [← h.2.1, ← h.2.2.1, ← h.2.2.2]
  | cons arg rest ih =>
    by_cases hd : startsWithDash arg
    · by_cases hdd : isDoubleDash arg
      · by_cases hA : 0 < A.length
        · simp [specLoop, hd, hdd, hA] at h
        · simp only [specLoop, hd, hdd, hA, if_true, if_false] at h
          have harg : arg = ddTok := isDoubleDash_eq arg hdd
          have hih := ih true A C P h
          rw [hih, List.count_cons]
          simp [harg, ht]
          exact fun he => ht he.symm
      · cases isCmd with
        | true =>
          simp only [specLoop, hd, hdd, Bool.false_eq_true, if_true, if_false] at h
          have hih := ih true A (C ++ [arg]) P h
          rw [hih, List.count_cons]
          by_cases hta : t = arg
          · simp [List.count_append, hta]
            omega
          · simp [List.count_append, hta]
            exact fun he => hta he.symm
        | false =>
          simp only [specLoop, hd, hdd, Bool.false_eq_true, if_true, if_false] at h
          have hih := ih false A C (P ++ [arg]) h
          rw [hih, List.count_cons]
          by_cases hta : t = arg
          · simp [List.count_append, hta]
            omega
          · simp [List.count_append, hta]
            exact fun he => hta he.symm
    · simp only [specLoop, hd, Bool.false_eq_true, if_false] at h
      have hih := ih isCmd (A ++ [arg]) C P h
      rw [hih, List.count_cons]
      by_cases hta : t = arg
      · simp [List.count_append, hta]
        omega
      · simp [List.count_append, hta]
        exact fun he => hta he.symm

/-- A completed scan never stores a `"--"` token in any of the three arrays. -/
lemma specLoop_ok_ddcount (toks : List Token) (isCmd : Bool) (A C P : List Token)
    (b : Bool) (A' C' P' : List Token)
    (h : specLoop toks isCmd A C P = SpecOut.ok b A' C' P') :
    A'.count ddTok = A.count ddTok ∧ C'.count ddTok = C.count ddTok ∧
      P'.count ddTok = P.count ddTok := by
  induction toks generalizing isCmd A C P with
  | nil =>
    simp only [specLoop, SpecOut.ok.injEq] at h
    simp [← h.2.1, ← h.2.2.1, ← h.2.2.2]
  | cons arg rest ih =>
    by_cases hd : startsWithDash arg
    · by_cases hdd : isDoubleDash arg
      · by_cases hA : 0 < A.length
        · simp [specLoop, hd, hdd, hA] at h
        · simp only [specLoop, hd, hdd, hA, if_true, if_false] at h
          exact ih true A C P h
      · have hne : ¬ ddTok = arg := by
          intro he
          rw [← he] at hdd
          exact hdd isDoubleDash_ddTok
        cases isCmd with
        | true =>
          simp only [specLoop, hd, hdd, Bool.false_eq_true, if_true, if_false] at h
          have hih := ih true A (C ++ [arg]) P h
          simpa [List.count_append, hne] using hih
        | false =>
          simp only [specLoop, hd, hdd, Bool.false_eq_true, if_true, if_false] at h
          have hih := ih false A C (P ++ [arg]) h
          simpa [List.count_append, hne] using hih
    · have hne : ¬ ddTok = arg := by
        intro he
        rw [← he] at hd
        exact hd startsWithDash_ddTok
      simp only [specLoop, hd, Bool.false_eq_true, if_false] at h
      have hih := ih isCmd (A ++ [arg]) C P h
      simpa [List.count_append, hne] using hih

/-- Every token a completed scan adds to an option array is a dash token
other than `"--"`. -/
lemma specLoop_ok_mem (toks : List Token) (isCmd : Bool) (A C P : List Token)
    (b : Bool) (A' C' P' : List Token)
    (h : specLoop toks isCmd A C P = SpecOut.ok b A' C' P') :
    (∀ t ∈ C', t ∈ C ∨ (startsWithDash t = true ∧ isDoubleDash t = false)) ∧
    (∀ t ∈ P', t ∈ P ∨ (startsWithDash t = true ∧ isDoubleDash t = false)) := by
  induction toks generalizing isCmd A C P with
  | nil =>
    simp only [specLoop, SpecOut.ok.injEq] at h
    rw [← h.2.2.1, ← h.2.2.2]
    exact ⟨fun t htm => Or.inl htm, fun t htm => Or.inl htm⟩
  | cons arg rest ih =>
    by_cases hd : startsWithDash arg
    · by_cases hdd : isDoubleDash arg
      · by_cases hA : 0 < A.length
        · simp [specLoop, hd, hdd, hA] at h
        · simp only [specLoop, hd, hdd, hA, if_true, if_false] at h
          exact ih true A C P h
      · have hddf : isDoubleDash arg = false := by simpa using hdd
        cases isCmd with
        | true =>
          simp only [specLoop, hd, hdd, Bool.false_eq_true, if_true, if_false] at h
          obtain ⟨hC, hP⟩ := ih true A (C ++ [arg]) P h
          refine ⟨?_, hP⟩
          intro t htmem
          rcases hC t htmem with hmem | hpred
          · rcases List.mem_append.mp hmem with hc | hs
            · exact Or.inl hc
            · have : t = arg := by simpa using hs
              subst this
              exact Or.inr ⟨hd, hddf⟩
          · exact Or.inr hpred
        | false =>
          simp only [specLoop, hd, hdd, Bool.false_eq_true, if_true, if_false] at h
          obtain ⟨hC, hP⟩ := ih false A C (P ++ [arg]) h
          refine ⟨hC, ?_⟩
          intro t htmem
          rcases hP t htmem with hmem | hpred
          · rcases List.mem_append.mp hmem with hc | hs
            · exact Or.inl hc
            · have : t = arg := by simpa using hs
              subst this
              exact Or.inr ⟨hd, hddf⟩
          · exact Or.inr hpred
    · simp only [specLoop, hd, Bool.false_eq_true, if_false] at h
      exact ih isCmd (A ++ [arg]) C P h

lemma specLoop_append_ok (l1 l2 : List Token) (isCmd : Bool) (A C P : List Token)
    (b : Bool) (A' C' P' : List Token)
    (h : specLoop l1 isCmd A C P = SpecOut.ok b A' C' P') :
    specLoop (l1 ++ l2) isCmd A C P = specLoop l2 b A' C' P' := by
  rw [specLoop_append, h]

/-- An all-zero `Cli`, used as the pre-call memory in concrete runs. -/
def cli0w : Cli :=
  ⟨none, none, ⟨0, 0, none⟩, ⟨0, 0, none⟩, ⟨0, 0, none⟩⟩

/-- C4: on an argument vector holding only the invocation path, `cli_parse`
succeeds, sets `execfile`, and leaves all three arrays in the zero-value
state (length 0, capacity 0, null data) — no storage is allocated. -/
theorem C4_zero_arg_result (exe : Token) (m1 m2 m3 : Bool) (cli0 : Cli) :
    cli_parse [exe] m1 m2 m3 cli0 =
      some (CliError.CliErrorOk,
        { execfile := some exe, command := none,
          args := ⟨0, 0, none⟩, cmd_options := ⟨0, 0, none⟩,
          program_options := ⟨0, 0, none⟩ }) := rfl

/-- C7: with at least one token after the invocation path, a failure of any
of the three allocations (attempted in the order args, cmd_options,
program_options) makes `cli_parse` return the fatal outcome at once, with no
token processed; arrays allocated before the failing one stay allocated and
the later ones are untouched. -/
theorem C7_alloc_failure (exe : Token) (toks : List Token) (m1 m2 m3 : Bool) (cli0 : Cli)
    (hne : toks ≠ []) :
    (m1 = false →
      cli_parse (exe :: toks) m1 m2 m3 cli0 =
        some (CliError.CliErrorFatal,
          { cli0 with
            execfile := some exe
            args := ⟨0, CLI_DEFAULT_ARR_CAP, none⟩ })) ∧
    (m1 = true → m2 = false →
      cli_parse (exe :: toks) m1 m2 m3 cli0 =
        some (CliError.CliErrorFatal,
          { cli0 with
            execfile := some exe
            args := ⟨0, CLI_DEFAULT_ARR_CAP, some []⟩
            cmd_options := ⟨0, CLI_DEFAULT_ARR_CAP, none⟩ })) ∧
    (m1 = true → m2 = true → m3 = false →
      cli_parse (exe :: toks) m1 m2 m3 cli0 =
        some (CliError.CliErrorFatal,
          { cli0 with
            execfile := some exe
            args := ⟨0, CLI_DEFAULT_ARR_CAP, some []⟩
            cmd_options := ⟨0, CLI_DEFAULT_ARR_CAP, some []⟩
            program_options := ⟨0, CLI_DEFAULT_ARR_CAP, none⟩ })) := by
  obtain ⟨t, ts, rfl⟩ := List.exists_cons_of_ne_nil hne
  refine ⟨?_, ?_, ?_⟩
  · rintro rfl
    rfl
  · rintro rfl rfl
    rfl
  · rintro rfl rfl rfl
    rfl

/-- Closed instance of C7: the first allocation fails on a two-token vector. -/
theorem C7_alloc_failure_witness :
    (([['a']] : List Token) ≠ []) ∧
    cli_parse [['e'], ['a']] false true true cli0w =
      some (CliError.CliErrorFatal,
        { cli0w with
          execfile := some ['e']
          args := ⟨0, CLI_DEFAULT_ARR_CAP, none⟩ }) :=
  ⟨by decide, (C7_alloc_failure ['e'] [['a']] false true true cli0w (by decide)).1 rfl⟩

/-- A style state outside the reachable set: `CLI_RESET` empty but
`CLI_BOLD` not. -/
def oddStyles : CliStyles := ⟨"", "x", "", "", ""⟩

/-- C8 counterexample: toggling twice is not the identity on an arbitrary
state of the five globals — starting from `CLI_RESET = ""`, `CLI_BOLD = "x"`,
two toggles end with all five strings empty, losing the `"x"`. -/
theorem C8_counterexample :
    cli_toggle_colors (cli_toggle_colors oddStyles) ≠ oddStyles := by
  decide

/-- C8 (amended): on every style state reachable from the initial one by
toggles — the only states the globals ever take — toggling twice returns
all five style strings to their original values. -/
theorem C8_toggle_twice_id (n : Nat) :
    cli_toggle_colors (cli_toggle_colors (cli_toggle_colors^[n] initCliStyles)) =
      cli_toggle_colors^[n] initCliStyles := by
  rcases iterate_toggle_reachable n with h | h <;> rw [h]
  · rw [toggle_initCliStyles, toggle_stylesOn]
  · rw [toggle_stylesOn, toggle_initCliStyles]

/-- C9: the five style strings start simultaneously empty, and in every
reachable state they are either all empty or all non-empty; each toggle
flips the whole group. -/
theorem C9_all_or_nothing :
    stylesInactive initCliStyles ∧
    (∀ n : Nat,
      stylesInactive (cli_toggle_colors^[n] initCliStyles) ∨
        stylesActive (cli_toggle_colors^[n] initCliStyles)) ∧
    (∀ n : Nat,
      stylesInactive (cli_toggle_colors^[n] initCliStyles) ↔
        stylesActive (cli_toggle_colors^[n + 1] initCliStyles)) := by
  refine ⟨⟨rfl, rfl, rfl, rfl, rfl⟩, ?_, ?_⟩
  · intro n
    rcases iterate_toggle_reachable n with h | h <;> rw [h]
    · left
      exact ⟨rfl, rfl, rfl, rfl, rfl⟩
    · right
      refine ⟨?_, ?_, ?_, ?_, ?_⟩ <;> decide
  · intro n
    rw [Function.iterate_succ_apply']
    rcases iterate_toggle_reachable n with h | h <;> rw [h]
    · rw [toggle_initCliStyles]
      constructor
      · intro _
        refine ⟨?_, ?_, ?_, ?_, ?_⟩ <;> decide
      · intro _
        exact ⟨rfl, rfl, rfl, rfl, rfl⟩
    · rw [toggle_stylesOn]
      constructor
      · intro hin
        exact absurd hin.1 (by decide)
      · intro hact
        exact absurd rfl hact.1

/-- C10: with at least one token beyond the invocation path, `cli_parse`
never writes the `command` field — it keeps its pre-call value on every
outcome; only in the zero-token case is the whole structure zero-initialized,
`command` included. -/
theorem C10_command_frame :
    (∀ (exe : Token) (toks : List Token) (m1 m2 m3 : Bool) (cli0 : Cli)
        (r : CliError) (cli' : Cli), toks ≠ [] →
        cli_parse (exe :: toks) m1 m2 m3 cli0 = some (r, cli') →
        cli'.command = cli0.command) ∧
    (∀ (exe : Token) (m1 m2 m3 : Bool) (cli0 : Cli),
        cli_parse [exe] m1 m2 m3 cli0 =
          some (CliError.CliErrorOk,
            { execfile := some exe, command := none,
              args := ⟨0, 0, none⟩, cmd_options := ⟨0, 0, none⟩,
              program_options := ⟨0, 0, none⟩ })) := by
  constructor
  · intro exe toks m1 m2 m3 cli0 r cli' hne hrun
    obtain ⟨t, ts, rfl⟩ := List.exists_cons_of_ne_nil hne
    cases m1 with
    | false =>
      have heq : cli_parse (exe :: t :: ts) false m2 m3 cli0 =
          some (CliError.CliErrorFatal,
            { cli0 with execfile := some exe, args := cli_da_init false }) := rfl
      rw [heq] at hrun
      simp only [Option.some.injEq, Prod.mk.injEq] at hrun
      rw [← hrun.2]
    | true =>
      cases m2 with
      | false =>
        have heq : cli_parse (exe :: t :: ts) true false m3 cli0 =
            some (CliError.CliErrorFatal,
              { cli0 with
                execfile := some exe
                args := cli_da_init true
                cmd_options := cli_da_init false }) := rfl
        rw [heq] at hrun
        simp only [Option.some.injEq, Prod.mk.injEq] at hrun
        rw [← hrun.2]
      | true =>
        cases m3 with
        | false =>
          have heq : cli_parse (exe :: t :: ts) true true false cli0 =
              some (CliError.CliErrorFatal,
                { cli0 with
                  execfile := some exe
                  args := cli_da_init true
                  cmd_options := cli_da_init true
                  program_options := cli_da_init false }) := rfl
          rw [heq] at hrun
          simp only [Option.some.injEq, Prod.mk.injEq] at hrun
          rw [← hrun.2]
        | true =>
          rw [cli_parse_cons] at hrun
          have hres := loop_to_spec (t :: ts) false (initCli cli0 exe) [] [] [] r cli'
            (goodState_initCli cli0 exe) hrun
          have hcli : cli' =
              (specToResult (initCli cli0 exe) (specLoop (t :: ts) false [] [] [])).2 :=
            congrArg Prod.snd hres
          rw [hcli]
          cases specLoop (t :: ts) false [] [] [] <;> rfl
  · intro exe m1 m2 m3 cli0
    rfl

/-- Closed instance of C10: a one-option vector leaves a pre-set `command`
value untouched. -/
theorem C10_command_frame_witness :
    (([['-', 'x']] : List Token) ≠ []) ∧
    ({ execfile := some ['e'], command := some ['c'],
       args := ⟨0, CLI_DEFAULT_ARR_CAP, some []⟩,
       cmd_options := ⟨0, CLI_DEFAULT_ARR_CAP, some []⟩,
       program_options := ⟨1, CLI_DEFAULT_ARR_CAP, some [['-', 'x']]⟩ } : Cli).command =
      ({ cli0w with command := some ['c'] } : Cli).command :=
  ⟨by decide,
    C10_command_frame.1 ['e'] [['-', 'x']] true true true
      { cli0w with command := some ['c'] } CliError.CliErrorOk
      { execfile := some ['e'], command := some ['c'],
        args := ⟨0, CLI_DEFAULT_ARR_CAP, some []⟩,
        cmd_options := ⟨0, CLI_DEFAULT_ARR_CAP, some []⟩,
        program_options := ⟨1, CLI_DEFAULT_ARR_CAP, some [['-', 'x']]⟩ }
      (by decide) (by decide)⟩

/-- C3: with allocations succeeding, a returning `cli_parse` yields the
user-error outcome exactly when the scan meets a `"--"` token after a
positional argument was collected; in that case the run stopped at the first
such `"--"`: the arrays hold precisely the clean classification of the
prefix before it (with a non-empty positional array), and nothing after it
was stored. -/
theorem C3_user_error (exe : Token) (toks : List Token) (cli0 : Cli)
    (r : CliError) (cli' : Cli) (hne : toks ≠ [])
    (hrun : cli_parse (exe :: toks) true true true cli0 = some (r, cli')) :
    ((r = CliError.CliErrorUser) ↔ hasUserErr toks false = true) ∧
    (r = CliError.CliErrorUser →
      ∃ pre post b a c p, toks = pre ++ ddTok :: post ∧
        specLoop pre false [] [] [] = SpecOut.ok b a c p ∧ 0 < a.length ∧
        cli'.args.data = some a ∧ cli'.cmd_options.data = some c ∧
        cli'.program_options.data = some p) := by
  have hres := parse_to_spec exe toks cli0 r cli' hne hrun
  have hiff : (r = CliError.CliErrorUser) ↔ hasUserErr toks false = true := by
    constructor
    · intro hr
      subst hr
      cases hs : specLoop toks false [] [] [] with
      | ok b A C P =>
        rw [hs] at hres
        simp [specToResult] at hres
      | user a c p =>
        have hh : (specLoop toks false [] [] []).isUser = true := by
          rw [hs]
          rfl
        rw [specLoop_isUser] at hh
        simpa using hh
    · intro herr
      have hh : (specLoop toks false [] [] []).isUser = true := by
        rw [specLoop_isUser]
        simpa using herr
      cases hs : specLoop toks false [] [] [] with
      | ok b A C P =>
        rw [hs] at hh
        simp [SpecOut.isUser] at hh
      | user a c p =>
        rw [hs] at hres
        simp only [specToResult, Prod.mk.injEq] at hres
        exact hres.1
  refine ⟨hiff, ?_⟩
  intro hr
  subst hr
  cases hs : specLoop toks false [] [] [] with
  | ok b A C P =>
    rw [hs] at hres
    simp [specToResult] at hres
  | user a c p =>
    rw [hs] at hres
    simp only [specToResult, Prod.mk.injEq, true_and] at hres
    obtain ⟨pre, post, b, hsplit, hok, hlen⟩ :=
      specLoop_user_split toks false [] [] [] a c p hs
    refine ⟨pre, post, b, a, c, p, hsplit, hok, hlen, ?_, ?_, ?_⟩ <;> rw [hres] <;> rfl

/-- The out-parameter state at the user-error stop of
`cli_parse [exec, "p", "--"]`. -/
def c3res : Cli :=
  { execfile := some ['e'], command := none,
    args := ⟨1, CLI_DEFAULT_ARR_CAP, some [['p']]⟩,
    cmd_options := ⟨0, CLI_DEFAULT_ARR_CAP, some []⟩,
    program_options := ⟨0, CLI_DEFAULT_ARR_CAP, some []⟩ }

/-- Closed instance of C3: a positional argument followed by `"--"`. -/
theorem C3_user_error_witness :
    (([['p'], ['-', '-']] : List Token) ≠ []) ∧
    cli_parse [['e'], ['p'], ['-', '-']] true true true cli0w =
      some (CliError.CliErrorUser, c3res) ∧
    (((CliError.CliErrorUser = CliError.CliErrorUser) ↔
        hasUserErr [['p'], ['-', '-']] false = true) ∧
      (CliError.CliErrorUser = CliError.CliErrorUser →
        ∃ pre post b a c p, ([['p'], ['-', '-']] : List Token) = pre ++ ddTok :: post ∧
          specLoop pre false [] [] [] = SpecOut.ok b a c p ∧ 0 < a.length ∧
          c3res.args.data = some a ∧ c3res.cmd_options.data = some c ∧
          c3res.program_options.data = some p)) :=
  ⟨by decide, by decide,
    C3_user_error ['e'] [['p'], ['-', '-']] cli0w CliError.CliErrorUser c3res
      (by decide) (by decide)⟩

/-- C5: the scope switch is one-way.  Split the token tail anywhere; if the
prefix scans cleanly and has already produced a command option, then whatever
`cli_parse` returns on the whole vector, the program-option array equals its
value at the split — no later option token is ever appended to it. -/
theorem C5_scope_one_way (exe : Token) (t1 t2 : List Token) (cli0 : Cli)
    (r : CliError) (cli' : Cli) (b : Bool) (A1 C1 P1 : List Token)
    (hrun : cli_parse (exe :: (t1 ++ t2)) true true true cli0 = some (r, cli'))
    (hok : specLoop t1 false [] [] [] = SpecOut.ok b A1 C1 P1)
    (hC : C1 ≠ []) :
    cli'.program_options.data = some P1 := by
  have hne : t1 ++ t2 ≠ [] := by
    intro he
    obtain ⟨h1, -⟩ := List.append_eq_nil.mp he
    rw [h1] at hok
    simp only [specLoop, SpecOut.ok.injEq] at hok
    exact hC hok.2.2.1.symm
  have hres := parse_to_spec exe (t1 ++ t2) cli0 r cli' hne hrun
  rw [specLoop_append_ok t1 t2 false [] [] [] b A1 C1 P1 hok] at hres
  have hb : b = true := by
    cases b with
    | true => rfl
    | false => exact absurd (specLoop_scope_false t1 [] [] [] A1 C1 P1 hok) hC
  subst hb
  have houtP := specLoop_true_outP t2 A1 C1 P1
  have hcli : cli' = (specToResult (initCli cli0 exe) (specLoop t2 true A1 C1 P1)).2 :=
    congrArg Prod.snd hres
  rw [hcli]
  cases hs : specLoop t2 true A1 C1 P1 with
  | ok b2 A2 C2 P2 =>
    rw [hs] at houtP
    simp only [SpecOut.outP] at houtP
    rw [houtP]
    rfl
  | user a2 c2 p2 =>
    rw [hs] at houtP
    simp only [SpecOut.outP] at houtP
    rw [houtP]
    rfl

/-- The parse result of `cli_parse [exec, "-a", "--", "-b", "-c"]`. -/
def c5res : Cli :=
  { execfile := some ['e'], command := none,
    args := ⟨0, CLI_DEFAULT_ARR_CAP, some []⟩,
    cmd_options := ⟨2, CLI_DEFAULT_ARR_CAP, some [['-', 'b'], ['-', 'c']]⟩,
    program_options := ⟨1, CLI_DEFAULT_ARR_CAP, some [['-', 'a']]⟩ }

/-- Closed instance of C5: after `-a -- -b`, a later `-c` cannot land in the
program options. -/
theorem C5_scope_one_way_witness :
    cli_parse [['e'], ['-', 'a'], ['-', '-'], ['-', 'b'], ['-', 'c']] true true true cli0w =
      some (CliError.CliErrorOk, c5res) ∧
    specLoop [['-', 'a'], ['-', '-'], ['-', 'b']] false [] [] [] =
      SpecOut.ok true [] [['-', 'b']] [['-', 'a']] ∧
    ([['-', 'b']] : List Token) ≠ [] ∧
    c5res.program_options.data = some [['-', 'a']] :=
  ⟨by decide, by decide, by decide,
    C5_scope_one_way ['e'] [['-', 'a'], ['-', '-'], ['-', 'b']] [['-', 'c']] cli0w
      CliError.CliErrorOk c5res true [] [['-', 'b']] [['-', 'a']]
      (by decide) (by decide) (by decide)⟩

/-- C1: on every successful parse (with no class exceeding the default
capacity), each token after the invocation path lands in exactly one of the
three arrays: the positional array is exactly the non-dash tokens, option
arrays hold only dash tokens other than `"--"`, every non-`"--"` occurrence
is stored exactly once across the three arrays, and `"--"` is stored
nowhere; in particular `[exec, "-a", "--", "-b"]` gives
`program_options = ["-a"]`, `cmd_options = ["-b"]`, `args = []`. -/
theorem C1_exactly_one_class :
    (∀ (exe : Token) (toks : List Token) (cli0 cli' : Cli),
      toks ≠ [] →
      (specLoop toks false [] [] []).outA.length ≤ CLI_DEFAULT_ARR_CAP →
      (specLoop toks false [] [] []).outC.length ≤ CLI_DEFAULT_ARR_CAP →
      (specLoop toks false [] [] []).outP.length ≤ CLI_DEFAULT_ARR_CAP →
      cli_parse (exe :: toks) true true true cli0 = some (CliError.CliErrorOk, cli') →
      ∃ A C P,
        cli'.args.data = some A ∧ cli'.cmd_options.data = some C ∧
        cli'.program_options.data = some P ∧
        A = toks.filter (fun t => !startsWithDash t) ∧
        (∀ t, t ≠ ddTok → A.count t + C.count t + P.count t = toks.count t) ∧
        A.count ddTok = 0 ∧ C.count ddTok = 0 ∧ P.count ddTok = 0 ∧
        (∀ t ∈ C, startsWithDash t = true ∧ isDoubleDash t = false) ∧
        (∀ t ∈ P, startsWithDash t = true ∧ isDoubleDash t = false)) ∧
    (∀ (exe : Token) (cli0 : Cli),
      cli_parse [exe, ['-', 'a'], ['-', '-'], ['-', 'b']] true true true cli0 =
        some (CliError.CliErrorOk,
          { cli0 with
            execfile := some exe
            args := ⟨0, CLI_DEFAULT_ARR_CAP, some []⟩
            cmd_options := ⟨1, CLI_DEFAULT_ARR_CAP, some [['-', 'b']]⟩
            program_options := ⟨1, CLI_DEFAULT_ARR_CAP, some [['-', 'a']]⟩ })) := by
  constructor
  · intro exe toks cli0 cli' hne hcA hcC hcP hrun
    have hres := parse_to_spec exe toks cli0 _ cli' hne hrun
    cases hs : specLoop toks false [] [] [] with
    | user a c p =>
      rw [hs] at hres
      simp [specToResult] at hres
    | ok b A C P =>
      rw [hs] at hres
      simp only [specToResult, Prod.mk.injEq, true_and] at hres
      refine ⟨A, C, P, by rw [hres]; rfl, by rw [hres]; rfl, by rw [hres]; rfl,
        ?_, ?_, ?_, ?_, ?_, ?_, ?_⟩
      · simpa using specLoop_ok_args toks false [] [] [] b A C P hs
      · intro t ht
        simpa using specLoop_ok_count toks false [] [] [] b A C P hs t ht
      · simpa using (specLoop_ok_ddcount toks false [] [] [] b A C P hs).1
      · simpa using (specLoop_ok_ddcount toks false [] [] [] b A C P hs).2.1
      · simpa using (specLoop_ok_ddcount toks false [] [] [] b A C P hs).2.2
      · intro t htm
        rcases (specLoop_ok_mem toks false [] [] [] b A C P hs).1 t htm with hin | hpred
        · simp at hin
        · exact hpred
      · intro t htm
        rcases (specLoop_ok_mem toks false [] [] [] b A C P hs).2 t htm with hin | hpred
        · simp at hin
        · exact hpred
  · intro exe cli0
    rfl

/-- The parse result of `cli_parse [exec, "-a", "--", "-b"]`. -/
def c1res : Cli :=
  { execfile := some ['e'], command := none,
    args := ⟨0, CLI_DEFAULT_ARR_CAP, some []⟩,
    cmd_options := ⟨1, CLI_DEFAULT_ARR_CAP, some [['-', 'b']]⟩,
    program_options := ⟨1, CLI_DEFAULT_ARR_CAP, some [['-', 'a']]⟩ }

/-- Closed instance of C1 on the vector `[exec, "-a", "--", "-b"]`. -/
theorem C1_exactly_one_class_witness :
    ∃ A C P,
      c1res.args.data = some A ∧ c1res.cmd_options.data = some C ∧
      c1res.program_options.data = some P ∧
      A = ([['-', 'a'], ['-', '-'], ['-', 'b']] : List Token).filter
        (fun t => !startsWithDash t) ∧
      (∀ t, t ≠ ddTok →
        A.count t + C.count t + P.count t =
          ([['-', 'a'], ['-', '-'], ['-', 'b']] : List Token).count t) ∧
      A.count ddTok = 0 ∧ C.count ddTok = 0 ∧ P.count ddTok = 0 ∧
      (∀ t ∈ C, startsWithDash t = true ∧ isDoubleDash t = false) ∧
      (∀ t ∈ P, startsWithDash t = true ∧ isDoubleDash t = false) :=
  C1_exactly_one_class.1 ['e'] [['-', 'a'], ['-', '-'], ['-', 'b']] cli0w c1res
    (by decide) (by decide) (by decide) (by decide) (by decide)

/-- C2: on every successful parse (with no class exceeding the default
capacity), each output array is the subsequence of the input tokens matching
its classification predicate, hence lists its tokens in input order: `args`
is the filter of non-dash tokens; splitting the input at the first `"--"`
(if any), `program_options` is the filter of dash tokens before it and
`cmd_options` the filter of dash non-`"--"` tokens after it. -/
theorem C2_order_preservation (exe : Token) (toks : List Token) (cli0 cli' : Cli)
    (hne : toks ≠ [])
    (hcA : (specLoop toks false [] [] []).outA.length ≤ CLI_DEFAULT_ARR_CAP)
    (hcC : (specLoop toks false [] [] []).outC.length ≤ CLI_DEFAULT_ARR_CAP)
    (hcP : (specLoop toks false [] [] []).outP.length ≤ CLI_DEFAULT_ARR_CAP)
    (hrun : cli_parse (exe :: toks) true true true cli0 =
      some (CliError.CliErrorOk, cli')) :
    ∃ A C P,
      cli'.args.data = some A ∧ cli'.cmd_options.data = some C ∧
      cli'.program_options.data = some P ∧
      A = toks.filter (fun t => !startsWithDash t) ∧
      List.Sublist A toks ∧ List.Sublist C toks ∧ List.Sublist P toks ∧
      ((ddTok ∉ toks ∧ C = [] ∧ P = toks.filter (fun t => startsWithDash t)) ∨
        (∃ pre post, toks = pre ++ ddTok :: post ∧ ddTok ∉ pre ∧
          P = pre.filter (fun t => startsWithDash t) ∧
          C = post.filter (fun t => startsWithDash t && !isDoubleDash t))) := by
  have hres := parse_to_spec exe toks cli0 _ cli' hne hrun
  cases hs : specLoop toks false [] [] [] with
  | user a c p =>
    rw [hs] at hres
    simp [specToResult] at hres
  | ok b A C P =>
    rw [hs] at hres
    simp only [specToResult, Prod.mk.injEq, true_and] at hres
    have hA : A = toks.filter (fun t => !startsWithDash t) := by
      simpa using specLoop_ok_args toks false [] [] [] b A C P hs
    have hsplit : (ddTok ∉ toks ∧ C = [] ∧ P = toks.filter (fun t => startsWithDash t)) ∨
        (∃ pre post, toks = pre ++ ddTok :: post ∧ ddTok ∉ pre ∧
          P = pre.filter (fun t => startsWithDash t) ∧
          C = post.filter (fun t => startsWithDash t && !isDoubleDash t)) := by
      by_cases hmem : ddTok ∈ toks
      · right
        obtain ⟨pre, post, hdec, hnot⟩ := exists_first_split ddTok toks hmem
        rw [hdec] at hs
        rw [specLoop_append pre (ddTok :: post) false [] [] []] at hs
        cases hpre : specLoop pre false [] [] [] with
        | user a0 c0 p0 =>
          rw [hpre] at hs
          simp at hs
        | ok b0 A0 C0 P0 =>
          rw [hpre] at hs
          simp only [] at hs
          obtain ⟨hb0, hC0, hP0⟩ := specLoop_noDD pre [] [] [] b0 A0 C0 P0 hnot hpre
          subst hb0
          have hsd : specLoop (ddTok :: post) false A0 C0 P0 =
              if 0 < A0.length then SpecOut.user A0 C0 P0
              else specLoop post true A0 C0 P0 := by
            simp [specLoop, startsWithDash_ddTok, isDoubleDash_ddTok]
          by_cases hA0 : 0 < A0.length
          · rw [hsd, if_pos hA0] at hs
            simp at hs
          · rw [hsd, if_neg hA0] at hs
            have hCC := (specLoop_true_ok post A0 C0 P0 b A C P hs).2
            rw [hC0] at hCC
            have hPP : P = P0 := by
              have h1 := specLoop_true_outP post A0 C0 P0
              rw [hs] at h1
              simpa [SpecOut.outP] using h1
            refine ⟨pre, post, hdec, hnot, ?_, ?_⟩
            · rw [hPP, hP0]
              simp
            · rw [hCC]
              simp
      · left
        obtain ⟨hb0, hC0, hP0⟩ := specLoop_noDD toks [] [] [] b A C P hmem hs
        exact ⟨hmem, hC0, by simpa using hP0⟩
    have hsubA : List.Sublist A toks := by
      rw [hA]
      exact List.filter_sublist toks
    have hsubC : List.Sublist C toks := by
      rcases hsplit with ⟨-, hC0, -⟩ | ⟨pre, post, hdec, -, -, hC0⟩
      · rw [hC0]
        exact List.nil_sublist toks
      · rw [hC0, hdec]
        exact ((List.filter_sublist post).trans
          (List.sublist_cons_self ddTok post)).trans
          (List.sublist_append_right pre (ddTok :: post))
    have hsubP : List.Sublist P toks := by
      rcases hsplit with ⟨-, -, hP0⟩ | ⟨pre, post, hdec, -, hP0, -⟩
      · rw [hP0]
        exact List.filter_sublist toks
      · rw [hP0, hdec]
        exact (List.filter_sublist pre).trans
          (List.sublist_append_left pre (ddTok :: post))
    exact ⟨A, C, P, by rw [hres]; rfl, by rw [hres]; rfl, by rw [hres]; rfl,
      hA, hsubA, hsubC, hsubP, hsplit⟩

/-- Closed instance of C2 on the vector `[exec, "-a", "--", "-b"]`. -/
theorem C2_order_preservation_witness :
    ∃ A C P,
      c1res.args.data = some A ∧ c1res.cmd_options.data = some C ∧
      c1res.program_options.data = some P ∧
      A = ([['-', 'a'], ['-', '-'], ['-', 'b']] : List Token).filter
        (fun t => !startsWithDash t) ∧
      List.Sublist A [['-', 'a'], ['-', '-'], ['-', 'b']] ∧
      List.Sublist C [['-', 'a'], ['-', '-'], ['-', 'b']] ∧
      List.Sublist P [['-', 'a'], ['-', '-'], ['-', 'b']] ∧
      ((ddTok ∉ ([['-', 'a'], ['-', '-'], ['-', 'b']] : List Token) ∧ C = [] ∧
          P = ([['-', 'a'], ['-', '-'], ['-', 'b']] : List Token).filter
            (fun t => startsWithDash t)) ∨
        (∃ pre post,
          ([['-', 'a'], ['-', '-'], ['-', 'b']] : List Token) = pre ++ ddTok :: post ∧
          ddTok ∉ pre ∧
          P = pre.filter (fun t => startsWithDash t) ∧
          C = post.filter (fun t => startsWithDash t && !isDoubleDash t))) :=
  C2_order_preservation ['e'] [['-', 'a'], ['-', '-'], ['-', 'b']] cli0w c1res
    (by decide) (by decide) (by decide) (by decide) (by decide)

/-- C6: `cli_da_init` establishes `length ≤ capacity`; `cli_da_append` below
capacity succeeds, increments `length`, preserves the invariant and the
capacity; at `length = capacity` (or beyond) the next append fires the
overflow assert instead of dropping data; and when no token class exceeds
the default capacity, the assert branch is unreachable throughout
`cli_parse` — the call returns. -/
theorem C6_capacity_invariant :
    (∀ ok : Bool, (cli_da_init ok).length ≤ (cli_da_init ok).capacity) ∧
    (∀ (a : CliStringArray) (item : Token),
      a.length < a.capacity →
      ∃ a', cli_da_append a item = some a' ∧ a'.length = a.length + 1 ∧
        a'.length ≤ a'.capacity ∧ a'.capacity = a.capacity) ∧
    (∀ (a : CliStringArray) (item : Token),
      a.capacity ≤ a.length → cli_da_append a item = none) ∧
    (∀ (exe : Token) (toks : List Token) (cli0 : Cli),
      toks ≠ [] →
      (specLoop toks false [] [] []).outA.length ≤ CLI_DEFAULT_ARR_CAP →
      (specLoop toks false [] [] []).outC.length ≤ CLI_DEFAULT_ARR_CAP →
      (specLoop toks false [] [] []).outP.length ≤ CLI_DEFAULT_ARR_CAP →
      (cli_parse (exe :: toks) true true true cli0).isSome) := by
  refine ⟨?_, ?_, ?_, ?_⟩
  · intro ok
    simp [cli_da_init]
  · intro a item hlt
    refine ⟨{ a with length := a.length + 1, data := a.data.map (fun l => l ++ [item]) },
      cli_da_append_isSome a item (by omega), rfl, by simpa using hlt, rfl⟩
  · intro a item hge
    unfold cli_da_append
    rw [if_pos]
    omega
  · intro exe toks cli0 hne h1 h2 h3
    exact parse_total exe toks cli0 hne h1 h2 h3

/-- Closed instance of C6: a full five-slot array rejects a sixth append,
and a five-token vector parses without reaching the assert. -/
theorem C6_capacity_invariant_witness :
    ((⟨5, 5, some [['a'], ['b'], ['c'], ['d'], ['f']]⟩ : CliStringArray).capacity ≤
        (⟨5, 5, some [['a'], ['b'], ['c'], ['d'], ['f']]⟩ : CliStringArray).length) ∧
    cli_da_append ⟨5, 5, some [['a'], ['b'], ['c'], ['d'], ['f']]⟩ ['g'] = none ∧
    (([['a'], ['b'], ['-', 'c'], ['-', '-'], ['-', 'd']] : List Token) ≠ []) ∧
    (cli_parse [['e'], ['a'], ['b'], ['-', 'c'], ['-', '-'], ['-', 'd']]
        true true true cli0w).isSome :=
  ⟨by decide,
    C6_capacity_invariant.2.2.1 ⟨5, 5, some [['a'], ['b'], ['c'], ['d'], ['f']]⟩ ['g']
      (by decide),
    by decide,
    C6_capacity_invariant.2.2.2 ['e'] [['a'], ['b'], ['-', 'c'], ['-', '-'], ['-', 'd']]
      cli0w (by decide) (by decide) (by decide) (by decide)⟩
